import Mathlib

/-!
Verification of the page-composition and state-management engine of the
pdf-combiner repository, shallowly embedded from src/script.js
(class VisualPDFTool).  JavaScript objects become Lean structures,
JavaScript arrays become Lean lists, the JSON deep copy used for overlay
lists is the identity on Lean values, and IndexedDB persistence becomes an
Option-valued field updated in program order.  JavaScript floats that only
ever hold exact user-entered values (percentages, opacity) are modelled as
rationals.
-/

/-- A loaded source file, as stored in VisualPDFTool.sourceFiles:
the persisted fields id, name and type (MIME string, or &quot;blank&quot; for the
virtual blank source).  The binary blob and the decoded pdf handles carry
no domain logic and are not modelled. -/
structure SourceFile where
  id : String
  name : String
  type : String
deriving Repr, DecidableEq

/-- One text overlay, as pushed by applyTextToPages:
{ text, xPercent, yPercent, size, color, opacity, rotation, font }. -/
structure TextOverlay where
  text : String
  xPercent : ℚ
  yPercent : ℚ
  size : Int
  color : String
  opacity : ℚ
  rotation : Int
  font : String
deriving Repr, DecidableEq

/-- One entry of VisualPDFTool.pages: a live page record holding a reference
to its source file (the JS object reference; pages referencing the same
source hold equal SourceFile values here). -/
structure Page where
  id : String
  sourceFile : SourceFile
  sourcePageIndex : Nat
  type : String
  rotation : Int
  textOverlays : List TextOverlay
deriving Repr, DecidableEq

/-- One entry of a history snapshot or of the persisted pages array, as
built by saveState / snapshotCurrentState: the page's scalar fields with
the source reference flattened to sourceFileId. -/
structure SnapPage where
  id : String
  sourceFileId : String
  sourcePageIndex : Nat
  type : String
  rotation : Int
  textOverlays : List TextOverlay
deriving Repr, DecidableEq

/-- The record written by LocalStorageManager.saveState under the single
key: the serialized source list plus the page snapshot. -/
structure DbRecord where
  sourceFiles : List SourceFile
  pages : List SnapPage
deriving Repr, DecidableEq

/-! ## Export engine: the image branch of createPdf -/

/-- The options object passed to page.drawImage in createPdf. -/
structure DrawImageOpts where
  x : Int
  y : Int
  width : Nat
  height : Nat
  rotate : Int
deriving Repr, DecidableEq

/-- The image branch of createPdf: given the embedded image's natural
width and height and the page's stored rotation (kept in [0,360) by
rotatePages, so the JS remainder agrees with emod), return the
[width,height] passed to newDoc.addPage and the drawImage options.
The code starts from { x: 0, y: 0, width, height, rotate } and overrides
x and y in the 90, 180 and 270 cases. -/
def imageBranch (width height : Nat) (pageRotation : Int) : (Nat × Nat) × DrawImageOpts :=
  let rotation := pageRotation.emod 360
  let isRotated := rotation = 90 ∨ rotation = 270
  let pageSize : Nat × Nat :=
    (if isRotated then height else width, if isRotated then width else height)
  let base : DrawImageOpts := { x := 0, y := 0, width := width, height := height, rotate := rotation }
  let drawOpts :=
    if rotation = 90 then { base with x := (height : Int), y := 0 }
    else if rotation = 180 then { base with x := (width : Int), y := (height : Int) }
    else if rotation = 270 then { base with x := 0, y := (width : Int) }
    else base
  (pageSize, drawOpts)

/-! ## Export engine: the overlay branch of createPdf -/

/-- Value of one hexadecimal digit character; the color input always
produces a well-formed lowercase or uppercase hex string. -/
def hexDigitVal (c : Char) : Nat :=
  if c.isDigit then c.toNat - 48
  else if 'a' ≤ c ∧ c ≤ 'f' then c.toNat - 87
  else if 'A' ≤ c ∧ c ≤ 'F' then c.toNat - 55
  else 0

/-- Value of the two hex digits of hex starting at position i. -/
def hexPairVal (cs : List Char) (i : Nat) : Nat :=
  16 * hexDigitVal (cs.getD i '0') + hexDigitVal (cs.getD (i + 1) '0')

/-- hexToRgb: parseInt(hex.substr(1,2),16)/255 and likewise at offsets 3
and 5. -/
def hexToRgb (hex : String) : ℚ × ℚ × ℚ :=
  let cs := hex.toList
  ((hexPairVal cs 1 : ℚ) / 255, (hexPairVal cs 3 : ℚ) / 255, (hexPairVal cs 5 : ℚ) / 255)

/-- The argument record of one page.drawText call in createPdf. -/
structure DrawTextCall where
  text : String
  x : ℚ
  y : ℚ
  size : Int
  colorR : ℚ
  colorG : ℚ
  colorB : ℚ
  opacity : ℚ
  rotate : Int
  xCentered : Bool
  yCentered : Bool
deriving Repr, DecidableEq

/-- The overlay loop of createPdf: for each overlay of the page, in list
order, emit one drawText call.  Coordinates follow the code:
x = width * (xPercent / 100), y = height - (height * (yPercent / 100)).
The opacity expression is (txt.opacity || 1), which replaces 0 by 1. -/
def drawOverlays (pageWidth pageHeight : ℚ) (overlays : List TextOverlay) : List DrawTextCall :=
  overlays.map fun txt =>
    let rgb := hexToRgb txt.color
    { text := txt.text
      x := pageWidth * (txt.xPercent / 100)
      y := pageHeight - pageHeight * (txt.yPercent / 100)
      size := txt.size
      colorR := rgb.1
      colorG := rgb.2.1
      colorB := rgb.2.2
      opacity := if txt.opacity = (0 : ℚ) then (1 : ℚ) else txt.opacity
      rotate := txt.rotation
      xCentered := true
      yCentered := true }

/-! ## Parsing helpers shared by selectByRange and sortByNumber.
String-valued inputs are processed as character lists so that every
definition evaluates inside the kernel. -/

/-- Whitespace test used by trimming and by parseInt's leading skip. -/
def isWS (c : Char) : Bool := c = ' ' || c = '\t' || c = '\n' || c = '\r'

/-- The trim applied by JavaScript String.prototype.trim. -/
def jsTrim (cs : List Char) : List Char :=
  ((cs.dropWhile isWS).reverse.dropWhile isWS).reverse

/-- Accumulator loop of String.prototype.split for a one-character
separator. -/
def jsSplitAux (sep : Char) : List Char → List Char → List (List Char)
  | [], acc => [acc.reverse]
  | c :: cs, acc =>
    if c = sep then acc.reverse :: jsSplitAux sep cs []
    else jsSplitAux sep cs (c :: acc)

/-- String.prototype.split with a one-character separator. -/
def jsSplit (sep : Char) (cs : List Char) : List (List Char) := jsSplitAux sep cs []

/-- Value of a nonempty run of decimal digits. -/
def digitsToNat (ds : List Char) : Nat :=
  ds.foldl (fun a c => a * 10 + (c.toNat - 48)) 0

/-- JavaScript parseInt with radix 10 behaviour on the numeric strings the
app feeds it: skip leading whitespace, read an optional sign and then the
longest run of decimal digits, ignoring any trailing garbage; none stands
for NaN (no digits).  The automatic 0x radix detection is not modelled:
the inputs here come from number inputs and page-range text. -/
def parseIntJS (cs : List Char) : Option Int :=
  let t := cs.dropWhile isWS
  let signAndRest : Int × List Char :=
    match t with
    | '-' :: r => (-1, r)
    | '+' :: r => (1, r)
    | r => (1, r)
  let ds := signAndRest.2.takeWhile Char.isDigit
  if ds.isEmpty then none else some (signAndRest.1 * (digitsToNat ds : Int))

/-! ## Selection: selectByRange -/

/-- Set.add on the selection, modelled on an insertion-ordered
duplicate-free list. -/
def addSel (sel : List String) (id : String) : List String :=
  if sel.contains id then sel else sel ++ [id]

/-- Body of both token branches of selectByRange once a candidate number i
is at hand: if (i > 0 && i <= total) add this.pages[i-1].id. -/
def addPageAt (pages : List Page) (sel : List String) (i : Int) : List String :=
  if 0 < i ∧ i ≤ (pages.length : Int) then
    match pages.get? (i - 1).toNat with
    | some p => addSel sel p.id
    | none => sel
  else sel

/-- The integers start, start+1, ..., stop of the range loop
for (let i = start; i <= stop; i++); empty when stop < start. -/
def rangeInts (start stop : Int) : List Int :=
  (List.range (stop + 1 - start).toNat).map fun k => start + (k : Int)

/-- selectByRange: trim the input and return unchanged if it is empty;
otherwise clear the selection, split on commas, and for each token either
parse a single 1-based page number or, when it contains a dash, parse an
inclusive start-end range, silently ignoring malformed or out-of-bounds
values. -/
def selectByRange (input : String) (pages : List Page) (sel : List String) : List String :=
  let t := jsTrim input.toList
  if t.isEmpty then sel
  else
    (jsSplit ',' t).foldl
      (fun s part =>
        if part.contains '-' then
          match jsSplit '-' part with
          | a :: b :: _ =>
            match parseIntJS a, parseIntJS b with
            | some start, some stop => (rangeInts start stop).foldl (addPageAt pages) s
            | _, _ => s
          | _ => s
        else
          match parseIntJS part with
          | some num => addPageAt pages s num
          | none => s)
      ([] : List String)

/-! ## Page-list operations -/

/-- Body of the duplicateSelected loop over this.pages, carried out with
an explicit counter k so that the environment-generated fresh ids can be
supplied as a function of the running duplicate count: each page is kept,
and a selected page is followed by a copy that differs only in its id
(the overlay list is deep-copied in JS; copying is the identity here). -/
def duplicateLoop (sel : List String) (fresh : Nat → String) : List Page → Nat → List Page
  | [], _ => []
  | p :: ps, k =>
    if sel.contains p.id then
      p :: { p with id := fresh k } :: duplicateLoop sel fresh ps (k + 1)
    else
      p :: duplicateLoop sel fresh ps k

/-- The in-place overlay mutation page.textOverlays.push(ov) applied to
the page with the given id, as applyTextToPages does for each target. -/
def addOverlayToPage (targetId : String) (ov : TextOverlay) (pages : List Page) : List Page :=
  pages.map fun p =>
    if p.id = targetId then { p with textOverlays := p.textOverlays ++ [ov] } else p

/-- Body of the rotatePages loop for one id: this.pages.find mutates the
first page carrying the id, setting rotation to
(rotation + angle + 360) % 360; at the call sites the dividend is
nonnegative, where the JS remainder coincides with emod. -/
def rotateFirst (angle : Int) (id : String) : List Page → List Page
  | [] => []
  | p :: ps =>
    if p.id == id then { p with rotation := (p.rotation + angle + 360).emod 360 } :: ps
    else p :: rotateFirst angle id ps

/-- Sort key of sortByNumber: parseInt(input.value) || 9999, so both NaN
and an entered 0 fall back to the last-place key 9999. -/
def sortKey (vals : String → String) (id : String) : Int :=
  match parseIntJS (vals id).toList with
  | none => 9999
  | some n => if n = 0 then 9999 else n

/-- sortByNumber's this.pages.sort((a,b) => map.get(a.id) - map.get(b.id)).
Array.prototype.sort is required to be stable, and insertion sort with the
reflexive key order is exactly the stable sort, so it is the denotation
used here; vals gives the text of each page's order input by page id. -/
def sortByNumberPages (vals : String → String) (pages : List Page) : List Page :=
  List.insertionSort (fun a b => sortKey vals a.id ≤ sortKey vals b.id) pages

/-- updateDataOrderFromDOM's rebuild of this.pages: for each id in DOM
order it pushes this.pages.find(p => p.id === id) without any check, so an
id absent from the document pushes undefined (none) into the sequence. -/
def updateDataOrderFromDOMOpt (newIds : List String) (pages : List Page) : List (Option Page) :=
  newIds.map fun i => pages.find? fun p => p.id == i

/-! ## The application state machine of VisualPDFTool.
The history stack is modelled with the most recent snapshot at the head:
the JS code pushes at the array end and shifts the oldest from the front,
mirrored here by cons at the head and dropLast at the tail.  IndexedDB
effects are applied in program order, matching the transaction-creation
order of the single-store database. -/

/-- Mutable fields of VisualPDFTool plus the persisted record. -/
structure AppState where
  sourceFiles : List SourceFile
  pages : List Page
  selectedPageIds : List String
  historyStack : List (List SnapPage)
  redoStack : List (List SnapPage)
  db : Option DbRecord
deriving Repr, DecidableEq

/-- The state right after the constructor: everything empty. -/
def initState : AppState := ⟨[], [], [], [], [], none⟩

/-- this.maxHistory. -/
def maxHistory : Nat := 20

/-- The snapshot mapper shared by saveState and snapshotCurrentState. -/
def snapPage (p : Page) : SnapPage :=
  ⟨p.id, p.sourceFile.id, p.sourcePageIndex, p.type, p.rotation, p.textOverlays⟩

/-- The full snapshot of a page list. -/
def snapshotOfPages (pages : List Page) : List SnapPage := pages.map snapPage

/-- snapshotCurrentState. -/
def snapshotCurrentState (s : AppState) : List SnapPage := snapshotOfPages s.pages

/-- saveState: push a snapshot of the current pages, shift the oldest
entry when the stack exceeds maxHistory, clear the redo stack, and
auto-save the current sources together with the snapshot. -/
def saveState (s : AppState) : AppState :=
  let snap := snapshotOfPages s.pages
  let h1 := snap :: s.historyStack
  let h2 := if maxHistory < h1.length then h1.dropLast else h1
  { s with historyStack := h2, redoStack := [], db := some ⟨s.sourceFiles, snap⟩ }

/-- clearWorkspace: saveState first, then empty the page list, the source
list and the selection and erase the persisted record. -/
def clearWorkspace (s : AppState) : AppState :=
  let s1 := saveState s
  { s1 with pages := [], sourceFiles := [], selectedPageIds := [], db := none }

/-- updateStatus: a full workspace clear whenever the page list is empty. -/
def updateStatus (s : AppState) : AppState :=
  if s.pages.isEmpty then clearWorkspace s else s

/-- The snapshot-entry resolution loop shared by restoreState and
restoreSession: entries whose sourceFileId is not found among the live
sources are skipped, the others are rebuilt with the found source. -/
def restorePages (sourceFiles : List SourceFile) : List SnapPage → List Page
  | [] => []
  | item :: rest =>
    match sourceFiles.find? (fun f => f.id == item.sourceFileId) with
    | some sf =>
      { id := item.id, sourceFile := sf, sourcePageIndex := item.sourcePageIndex,
        type := item.type, rotation := item.rotation, textOverlays := item.textOverlays }
        :: restorePages sourceFiles rest
    | none => restorePages sourceFiles rest

/-- restoreState: rebuild this.pages from the snapshot, clear the
selection, run updateStatus (which may clear the whole workspace), and
finally auto-save the sources as they then stand together with the
restored snapshot. -/
def restoreState (s : AppState) (stateSnapshot : List SnapPage) : AppState :=
  let s1 := { s with pages := restorePages s.sourceFiles stateSnapshot,
                     selectedPageIds := [] }
  let s2 := updateStatus s1
  { s2 with db := some ⟨s2.sourceFiles, stateSnapshot⟩ }

/-- performUndo: no-op on an empty history stack; otherwise push a
snapshot of the current state onto the redo stack and restore the popped
top of the history stack. -/
def performUndo (s : AppState) : AppState :=
  match s.historyStack with
  | [] => s
  | top :: rest =>
    restoreState
      { s with redoStack := snapshotCurrentState s :: s.redoStack, historyStack := rest }
      top

/-- performRedo: symmetric to performUndo; the push onto the history stack
is not capped. -/
def performRedo (s : AppState) : AppState :=
  match s.redoStack with
  | [] => s
  | top :: rest =>
    restoreState
      { s with historyStack := snapshotCurrentState s :: s.historyStack, redoStack := rest }
      top

/-- addPageToData: push a fresh page record with rotation 0 and no
overlays; the generated id is supplied by the environment. -/
def addPageToData (pages : List Page) (sourceFile : SourceFile) (pid : String)
    (index : Nat) (type : String) : List Page :=
  pages ++ [⟨pid, sourceFile, index, type, 0, []⟩]

/-- One file of an addFiles batch: its source record, the page count
obtained from decoding when it is a PDF (none models a decode failure,
which is alerted and skipped), and the environment-generated page ids. -/
structure IngestFile where
  src : SourceFile
  pdfPageCount : Option Nat
  pageIds : List String
deriving Repr

/-- Per-file body of the addFiles loop: images contribute one page,
well-formed PDFs one page per source page in natural order, failing PDFs
and unsupported MIME types are skipped. -/
def ingestOne (s : AppState) (f : IngestFile) : AppState :=
  if ("image/".toList).isPrefixOf f.src.type.toList then
    { s with sourceFiles := s.sourceFiles ++ [f.src],
             pages := addPageToData s.pages f.src (f.pageIds.getD 0 "") 0 "image" }
  else if f.src.type = "application/pdf" then
    match f.pdfPageCount with
    | some numPages =>
      { s with sourceFiles := s.sourceFiles ++ [f.src],
               pages := (List.range numPages).foldl
                 (fun pgs i => addPageToData pgs f.src (f.pageIds.getD i "") i "pdf") s.pages }
    | none => s
  else s

/-- addFiles: early return on an empty batch, else saveState once before
the whole batch, ingest each file, and finish with updateStatus. -/
def addFiles (s : AppState) (files : List IngestFile) : AppState :=
  if files.isEmpty then s
  else updateStatus (files.foldl ingestOne (saveState s))

/-- insertBlankPage: saveState, reuse or create the virtual_blank
singleton source, append one blank page, updateStatus. -/
def insertBlankPage (s : AppState) (pid : String) : AppState :=
  let s1 := saveState s
  let s2 :=
    match s1.sourceFiles.find? (fun f => f.id == "virtual_blank") with
    | some blankSource =>
      { s1 with pages := addPageToData s1.pages blankSource pid 0 "blank" }
    | none =>
      let blankSource : SourceFile := ⟨"virtual_blank", "Blank Page", "blank"⟩
      { s1 with sourceFiles := s1.sourceFiles ++ [blankSource],
                pages := addPageToData s1.pages blankSource pid 0 "blank" }
  updateStatus s2

/-- deletePages: saveState, filter out the given ids, clear the selection,
updateStatus. -/
def deletePages (s : AppState) (ids : List String) : AppState :=
  let s1 := saveState s
  updateStatus
    { s1 with pages := s1.pages.filter (fun p => !(ids.contains p.id)),
              selectedPageIds := [] }

/-- duplicateSelected: early return when nothing is selected; otherwise
saveState, interleave a fresh-id copy after every selected page, and
updateStatus. -/
def duplicateSelected (s : AppState) (fresh : Nat → String) : AppState :=
  if s.selectedPageIds.isEmpty then s
  else
    let s1 := saveState s
    updateStatus { s1 with pages := duplicateLoop s1.selectedPageIds fresh s1.pages 0 }

/-- rotatePages: saveState, then rotate the first matching page for each
given id. -/
def rotatePages (s : AppState) (ids : List String) (angle : Int) : AppState :=
  let s1 := saveState s
  { s1 with pages := ids.foldl (fun pgs i => rotateFirst angle i pgs) s1.pages }

/-- rotateSelectedPages: guarded by a nonempty selection. -/
def rotateSelectedPages (s : AppState) (angle : Int) : AppState :=
  if s.selectedPageIds.isEmpty then s else rotatePages s s.selectedPageIds angle

/-- sortByNumber: saveState, then stable-sort the pages by the keys read
from the per-page order inputs. -/
def sortByNumber (s : AppState) (vals : String → String) : AppState :=
  let s1 := saveState s
  { s1 with pages := sortByNumberPages vals s1.pages }

/-- Drag reorder: Sortable calls saveState at drag start and
updateDataOrderFromDOM at drag end.  The grid's children are always
exactly the rendered pages, so the dropped id order is a permutation of
the current page ids; the operation is gated on that UI invariant, under
which every find succeeds and dropping the none entries is the identity
embedding of the JS array. -/
def dragReorder (s : AppState) (newIds : List String) : AppState :=
  if newIds.isPerm (s.pages.map (·.id)) then
    let s1 := saveState s
    { s1 with pages := (updateDataOrderFromDOMOpt newIds s1.pages).reduceOption }
  else s

/-- applyTextToPages: early return on empty text (before saveState), then
saveState, early return when only-selected targets are empty (after
saveState), else push the overlay onto every targeted page.  The JS locals
for the saved state and the target list are inlined here. -/
def applyTextToPages (s : AppState) (onlySelected : Bool) (ov : TextOverlay) : AppState :=
  if ov.text = "" then s
  else if onlySelected &&
      (if onlySelected then
        (saveState s).pages.filter (fun p => (saveState s).selectedPageIds.contains p.id)
      else (saveState s).pages).isEmpty then
    saveState s
  else
    { saveState s with pages := (saveState s).pages.map fun p =>
        if !onlySelected || (saveState s).selectedPageIds.contains p.id then
          { p with textOverlays := p.textOverlays ++ [ov] }
        else p }

/-- Pure selection updates (click handling, selectAll, deselectAll);
they touch no other field. -/
def setSelection (s : AppState) (ids : List String) : AppState :=
  { s with selectedPageIds := ids }

/-- The user-triggerable committed operations of the tool. -/
inductive Op where
  | addFiles (files : List IngestFile)
  | insertBlank (pid : String)
  | deletePages (ids : List String)
  | duplicateSelected (fresh : Nat → String)
  | rotateSelected (angle : Int)
  | rotatePages (ids : List String) (angle : Int)
  | sortByNumber (vals : String → String)
  | applyText (onlySelected : Bool) (ov : TextOverlay)
  | dragReorder (newIds : List String)
  | setSelection (ids : List String)
  | performUndo
  | performRedo
  | clearWorkspace

/-- Dispatch one operation. -/
def applyOp (s : AppState) : Op → AppState
  | .addFiles files => addFiles s files
  | .insertBlank pid => insertBlankPage s pid
  | .deletePages ids => deletePages s ids
  | .duplicateSelected fresh => duplicateSelected s fresh
  | .rotateSelected angle => rotateSelectedPages s angle
  | .rotatePages ids angle => rotatePages s ids angle
  | .sortByNumber vals => sortByNumber s vals
  | .applyText onlySelected ov => applyTextToPages s onlySelected ov
  | .dragReorder newIds => dragReorder s newIds
  | .setSelection ids => setSelection s ids
  | .performUndo => performUndo s
  | .performRedo => performRedo s
  | .clearWorkspace => clearWorkspace s

/-- Run a sequence of operations. -/
def runOps (s : AppState) (ops : List Op) : AppState := ops.foldl applyOp s

/-- The referential invariant of the live document: every page's source
reference is the source found live under its id. -/
def pagesResolve (sourceFiles : List SourceFile) (pages : List Page) : Bool :=
  pages.all fun p =>
    decide (sourceFiles.find? (fun f => f.id == p.sourceFile.id) = some p.sourceFile)

/-- One operation takes the capture-then-edit path with the history cap
applied: the history stack becomes the pre-state snapshot pushed onto the
old stack with the oldest entry shifted out above 20 entries, the redo
stack is cleared, and the source registry is untouched.  This is exactly
what a mutating operation that begins with saveState and does not go
through clearWorkspace does. -/
def capturesWithCap (s : AppState) (op : Op) : Bool :=
  decide ((applyOp s op).historyStack
            = (snapshotOfPages s.pages :: s.historyStack).take maxHistory) &&
  decide ((applyOp s op).sourceFiles = s.sourceFiles) &&
  (applyOp s op).redoStack.isEmpty

/-- A run of captured mutations: every step captures then edits, and every
post-state keeps at least one page, all of whose source references
resolve. -/
def cleanEditRun (s : AppState) : List Op → Bool
  | [] => true
  | op :: rest =>
    capturesWithCap s op &&
    !(applyOp s op).pages.isEmpty &&
    pagesResolve (applyOp s op).sourceFiles (applyOp s op).pages &&
    cleanEditRun (applyOp s op) rest

/-- The page lists whose snapshots a run pushes, most recent first: the
pre-state pages of each step. -/
def pageTrail (s : AppState) : List Op → List (List Page)
  | [] => []
  | op :: rest => pageTrail (applyOp s op) rest ++ [s.pages]

/-! ## Concrete sample data used by closed counterexamples and witnesses -/

/-- A sample ingested image source. -/
def srcA : SourceFile := ⟨"s1", "photo.png", "image/png"⟩

/-- The page created for srcA. -/
def pgA : Page := ⟨"p1", srcA, 0, "image", 0, []⟩

/-- A second page of the same source. -/
def pgB : Page := ⟨"p2", srcA, 1, "image", 0, []⟩

/-- A one-page workspace with a live source and empty history. -/
def stA : AppState := ⟨[srcA], [pgA], [], [], [], none⟩

/-- The ingestion record producing pgA. -/
def imgIngest : IngestFile := ⟨srcA, none, ["p1"]⟩

/-- Ten pages with ids n1 .. n10, for the range-selection scenarios. -/
def tenPages : List Page :=
  ["n1", "n2", "n3", "n4", "n5", "n6", "n7", "n8", "n9", "n10"].map
    fun i => ⟨i, srcA, 0, "image", 0, []⟩

/-- An overlay at the top-center scenario position. -/
def topCenterOverlay : TextOverlay :=
  { text := "Hello", xPercent := 50, yPercent := 0, size := 24,
    color := "#000000", opacity := 1, rotation := 0, font := "Helvetica" }

/-- Two pages named a and b for the sort-by-number scenarios. -/
def pA : Page := ⟨"a", srcA, 0, "image", 0, []⟩

/-- Companion page of pA. -/
def pB : Page := ⟨"b", srcA, 1, "image", 0, []⟩

/-- Order-input values: page a is numbered 0, page b 10000. -/
def c10vals : String → String := fun id => if id = "a" then "0" else "10000"

/-- Order-input values: page a is numbered 0, page b 5. -/
def c10wvals : String → String := fun id => if id = "a" then "0" else "5"

/-- A page record with its id blanked, used to compare duplicated pages
structurally while ignoring the generated fresh ids. -/
def stripPageId (p : Page) : Page := { p with id := "" }

/-! ## Theorems -/

/-- C5: Image-page export geometry: for every IMAGE page the output page
dimensions equal the image's natural width and height, swapped exactly
when the page rotation is 90 or 270, and the draw origin is compensated
per rotation case: 0 unshifted, 90 shifted right by the image height,
180 shifted by full width and height, 270 shifted up by the image width;
in particular a 100 by 200 image rotated 90 yields a 200 by 100 page. -/
theorem c5_image_export_geometry :
    (∀ w h : Nat,
      imageBranch w h 0 = ((w, h), ⟨0, 0, w, h, 0⟩) ∧
      imageBranch w h 90 = ((h, w), ⟨(h : Int), 0, w, h, 90⟩) ∧
      imageBranch w h 180 = ((w, h), ⟨(w : Int), (h : Int), w, h, 180⟩) ∧
      imageBranch w h 270 = ((h, w), ⟨0, (w : Int), w, h, 270⟩)) ∧
    imageBranch 100 200 90 = ((200, 100), ⟨200, 0, 100, 200, 90⟩) := by
  constructor
  · intro w h
    refine ⟨?_, ?_, ?_, ?_⟩ <;> norm_num [imageBranch]
  · decide

/-- C6: Overlay coordinate mapping: every TextOverlay of a page is drawn
in list order, centered both ways, at x = pageWidth * xPercent / 100 and
y = pageHeight - pageHeight * yPercent / 100; an overlay with xPercent 50
and yPercent 0 on a 600 by 800 page is centered at (300, 800). -/
theorem c6_overlay_coordinate_mapping :
    (∀ (w h : ℚ) (overlays : List TextOverlay),
      (drawOverlays w h overlays).map (fun c => (c.text, c.x, c.y, c.xCentered, c.yCentered))
        = overlays.map (fun t =>
            (t.text, w * t.xPercent / 100, h - h * t.yPercent / 100, true, true))) ∧
    (drawOverlays 600 800 [topCenterOverlay]).map (fun c => (c.x, c.y)) = [(300, 800)] := by
  constructor
  · intro w h overlays
    simp [drawOverlays, List.map_map, Function.comp, mul_div_assoc]
  · norm_num [drawOverlays, topCenterOverlay]

/-- C7: Orphan drop on restore: restoring a snapshot (or the persisted
pages array, which runs the same resolution loop) yields, in order,
exactly those entries whose sourceFileId resolves among the live sources,
each rebuilt intact (same id, source id, page index, type, rotation and
overlays, witnessed by its snapshot being the original entry), and every
restored page's source reference is the live source found under its id;
entries with a dangling reference are silently omitted. -/
theorem c7_orphan_drop :
    ∀ (sources : List SourceFile) (snap : List SnapPage),
      snapshotOfPages (restorePages sources snap)
        = snap.filter (fun item => (sources.find? (fun f => f.id == item.sourceFileId)).isSome) ∧
      ∀ p ∈ restorePages sources snap,
        sources.find? (fun f => f.id == p.sourceFile.id) = some p.sourceFile := by
  intro sources snap
  induction snap with
  | nil => exact ⟨rfl, by intro p hp; cases hp⟩
  | cons item rest ih =>
    obtain ⟨ih1, ih2⟩ := ih
    cases hfind : sources.find? (fun f => f.id == item.sourceFileId) with
    | none =>
      constructor
      · simp [restorePages, hfind, snapshotOfPages] at ih1 ⊢
        exact ih1
      · intro p hp
        simp only [restorePages, hfind] at hp
        exact ih2 p hp
    | some sf =>
      have hid : sf.id = item.sourceFileId := by
        have := List.find?_some hfind
        simpa using this
      constructor
      · simp only [restorePages, hfind, snapshotOfPages, List.map_cons, List.filter_cons,
                   Option.isSome_some, if_true]
        have h1 : snapPage ⟨item.id, sf, item.sourcePageIndex, item.type,
            item.rotation, item.textOverlays⟩ = item := by
          simp [snapPage, hid]
        have ih1A : List.map snapPage (restorePages sources rest)
            = List.filter (fun it => (List.find? (fun f => f.id == it.sourceFileId) sources).isSome)
                rest := by
          simpa [snapshotOfPages] using ih1
        rw [h1, ih1A]
      · intro p hp
        simp only [restorePages, hfind, List.mem_cons] at hp
        rcases hp with hp | hp
        · subst hp
          simpa [hid] using hfind
        · exact ih2 p hp

/-- C4 counterexample: the claim says a range expression adds to the
selection without clearing it first; on a two-page document with an
existing selection, evaluating the expression 2 yields only the second
page's id and the previously selected id is gone. -/
theorem c4_counterexample :
    selectByRange "2" [pgA, pgB] ["zz"] = ["p2"] ∧
    "zz" ∉ selectByRange "2" [pgA, pgB] ["zz"] := by decide

/-- C4 amended: for a nonempty (after trimming) expression, selectByRange
first clears the selection, so the result is independent of the prior
selection; valid 1-based tokens and inclusive ranges then add their pages,
and out-of-bounds or malformed tokens are silently ignored, as in the two
scenarios 1-3,5 and 0,99 over ten pages. -/
theorem c4_amended :
    (∀ (input : String) (pages : List Page) (sel : List String),
        jsTrim input.toList ≠ [] →
        selectByRange input pages sel = selectByRange input pages []) ∧
    selectByRange "1-3,5" tenPages [] = ["n1", "n2", "n3", "n5"] ∧
    selectByRange "0,99" tenPages ["kept"] = [] := by
  refine ⟨?_, by decide, by decide⟩
  intro input pages sel hne
  have hne2 : ¬ ((jsTrim input.toList).isEmpty = true) := by
    simpa [List.isEmpty_iff] using hne
  simp only [selectByRange]
  rw [if_neg hne2, if_neg hne2]

/-- C4 witness: the amended clearing law applied at the expression 2 over
ten pages with a stale selection. -/
theorem c4_witness :
    selectByRange "2" tenPages ["zz"] = selectByRange "2" tenPages [] :=
  c4_amended.1 "2" tenPages ["zz"] (by decide)

/-- C3 counterexample: the claim says ids not previously present are
ignored with nothing inserted for them; the code instead pushes
this.pages.find of the unknown id, inserting an undefined (none) entry
into the rebuilt sequence. -/
theorem c3_counterexample :
    updateDataOrderFromDOMOpt ["zz"] [pgA] = [none] ∧
    (updateDataOrderFromDOMOpt ["zz"] [pgA]).length = 1 := by decide

/-- C3 amended: when every id of the new order occurs in the document
(as is the case for the drag-reorder caller, whose DOM order lists exactly
the current pages), the rebuilt sequence is exactly the surviving pages in
the given order: its ids are the new order and its entries are pages of
the old document; ids of the old sequence missing from the new order are
dropped. -/
theorem c3_amended (newIds : List String) (pages : List Page)
    (hfound : ∀ i ∈ newIds, (pages.find? fun p => p.id == i).isSome = true) :
    ((updateDataOrderFromDOMOpt newIds pages).reduceOption).map (·.id) = newIds ∧
    ∀ q ∈ (updateDataOrderFromDOMOpt newIds pages).reduceOption, q ∈ pages := by
  induction newIds with
  | nil => exact ⟨rfl, by intro q hq; cases hq⟩
  | cons i rest ih =>
    have hi := hfound i (List.mem_cons_self i rest)
    obtain ⟨p, hp⟩ := Option.isSome_iff_exists.mp hi
    have hrest := fun j hj => hfound j (List.mem_cons_of_mem _ hj)
    obtain ⟨ih1, ih2⟩ := ih hrest
    have hpid : p.id = i := by simpa using List.find?_some hp
    constructor
    · simp only [updateDataOrderFromDOMOpt, List.map_cons, hp,
                 List.reduceOption_cons_of_some] at ih1 ⊢
      rw [hpid, ih1]
    · intro q hq
      simp only [updateDataOrderFromDOMOpt, List.map_cons, hp,
                 List.reduceOption_cons_of_some, List.mem_cons] at hq
      rcases hq with rfl | hq
      · exact List.mem_of_find?_eq_some hp
      · exact ih2 q (by simpa [updateDataOrderFromDOMOpt] using hq)

/-- C3 witness: the amended reorder law applied to the reversed order of a
two-page document. -/
theorem c3_witness :
    ((updateDataOrderFromDOMOpt ["p2", "p1"] [pgA, pgB]).reduceOption).map (·.id)
      = ["p2", "p1"] :=
  (c3_amended ["p2", "p1"] [pgA, pgB] (by decide)).1

/-- C10 counterexample: the claim says a page explicitly numbered 0 sorts
after all pages with positive numbers; with page a numbered 0 (key 9999)
and page b numbered 10000, the sort keeps a before b. -/
theorem c10_counterexample :
    sortByNumberPages c10vals [pA, pB] = [pA, pB] ∧
    parseIntJS (c10vals pA.id).toList = some 0 ∧
    parseIntJS (c10vals pB.id).toList = some 10000 ∧
    sortKey c10vals pA.id = 9999 := by decide

/-- C10 amended: in sort-by-explicit-number, a page whose entered number
parses to 0 receives the last-place key 9999 through the falsy fallback,
as does a failed parse, and therefore sorts after every page whose entered
positive number is below 9999 (pages numbered 9999 or more can still
follow it). -/
theorem c10_amended (vals : String → String) (pages : List Page)
    (i j : Fin (sortByNumberPages vals pages).length)
    (hzero : parseIntJS (vals ((sortByNumberPages vals pages).get i).id).toList = some 0)
    (n : Int)
    (hn : parseIntJS (vals ((sortByNumberPages vals pages).get j).id).toList = some n)
    (hn0 : 0 < n) (hn9999 : n < 9999) :
    sortKey vals ((sortByNumberPages vals pages).get i).id = 9999 ∧
    (∀ (v : String → String) (s : String), parseIntJS (v s).toList = none → sortKey v s = 9999) ∧
    (j : Nat) < (i : Nat) := by
  have hne : n ≠ 0 := by omega
  have hkeyi : sortKey vals ((sortByNumberPages vals pages).get i).id = 9999 := by
    unfold sortKey
    rw [hzero]
    simp
  have hkeyj : sortKey vals ((sortByNumberPages vals pages).get j).id = n := by
    unfold sortKey
    rw [hn]
    simp [hne]
  refine ⟨hkeyi, fun v s hnone => by unfold sortKey; rw [hnone], ?_⟩
  haveI htot : IsTotal Page (fun a b => sortKey vals a.id ≤ sortKey vals b.id) :=
    ⟨fun a b => le_total _ _⟩
  haveI htrans : IsTrans Page (fun a b => sortKey vals a.id ≤ sortKey vals b.id) :=
    ⟨fun a b c hab hbc => le_trans hab hbc⟩
  have hsorted := List.sorted_insertionSort
    (fun a b => sortKey vals a.id ≤ sortKey vals b.id) pages
  by_contra hcon
  have hle : (i : Nat) ≤ (j : Nat) := Nat.le_of_not_lt hcon
  rcases Nat.eq_or_lt_of_le hle with heq | hlt
  · have hij : i = j := Fin.ext heq
    rw [hij, hn] at hzero
    simp only [Option.some.injEq] at hzero
    omega
  · have hfin : i < j := hlt
    have hrel := List.Sorted.rel_get_of_lt hsorted hfin
    have hrel2 : sortKey vals ((sortByNumberPages vals pages).get i).id
        ≤ sortKey vals ((sortByNumberPages vals pages).get j).id := hrel
    rw [hkeyi, hkeyj] at hrel2
    omega

/-- C10 witness: the amended law applied with page a numbered 0 and page b
numbered 5: the sort places a at index 1, after b at index 0. -/
theorem c10_witness :
    sortKey c10wvals ((sortByNumberPages c10wvals [pA, pB]).get ⟨1, by decide⟩).id = 9999 ∧
    (∀ (v : String → String) (s : String), parseIntJS (v s).toList = none → sortKey v s = 9999) ∧
    (0 : Nat) < (1 : Nat) :=
  c10_amended c10wvals [pA, pB] ⟨1, by decide⟩ ⟨0, by decide⟩ (by decide) 5 (by decide)
    (by decide) (by decide)

/-- Helper: blanking the id of the duplicate copy gives back the blanked
original, since the copy agrees on every other field. -/
theorem stripPageId_copy (p : Page) (s : String) :
    stripPageId { p with id := s } = stripPageId p := rfl

/-- Helper: unfolding of duplicateLoop on a selected head. -/
theorem duplicateLoop_cons_pos (sel : List String) (fresh : Nat → String)
    (p : Page) (ps : List Page) (k : Nat) (hsel : p.id ∈ sel) :
    duplicateLoop sel fresh (p :: ps) k
      = p :: { p with id := fresh k } :: duplicateLoop sel fresh ps (k + 1) := by
  simp [duplicateLoop, hsel]

/-- Helper: unfolding of duplicateLoop on an unselected head. -/
theorem duplicateLoop_cons_neg (sel : List String) (fresh : Nat → String)
    (p : Page) (ps : List Page) (k : Nat) (hsel : p.id ∉ sel) :
    duplicateLoop sel fresh (p :: ps) k = p :: duplicateLoop sel fresh ps k := by
  simp [duplicateLoop, hsel]

/-- Helper: duplicateSelected interleaves a structural copy right after
each selected page; with the generated ids blanked, the result is the
flat-map that repeats selected pages. -/
theorem duplicateLoop_strip (sel : List String) (fresh : Nat → String) :
    ∀ (ps : List Page) (k : Nat),
      (duplicateLoop sel fresh ps k).map stripPageId
        = ps.flatMap (fun p =>
            if sel.contains p.id then [stripPageId p, stripPageId p] else [stripPageId p]) := by
  intro ps
  induction ps with
  | nil => intro k; rfl
  | cons p ps ih =>
    intro k
    by_cases hsel : p.id ∈ sel
    · rw [duplicateLoop_cons_pos sel fresh p ps k hsel]
      simp [hsel, ih, stripPageId_copy]
    · rw [duplicateLoop_cons_neg sel fresh p ps k hsel]
      simp [hsel, ih]

/-- Helper: every page of the input document survives duplication as the
same record. -/
theorem mem_duplicateLoop_self (sel : List String) (fresh : Nat → String) :
    ∀ (ps : List Page) (k : Nat) (p : Page), p ∈ ps → p ∈ duplicateLoop sel fresh ps k := by
  intro ps
  induction ps with
  | nil => intro k p hp; cases hp
  | cons q ps ih =>
    intro k p hp
    rcases List.mem_cons.mp hp with rfl | hp
    · by_cases hsel : p.id ∈ sel
      · rw [duplicateLoop_cons_pos sel fresh p ps k hsel]
        exact List.mem_cons_self _ _
      · rw [duplicateLoop_cons_neg sel fresh p ps k hsel]
        exact List.mem_cons_self _ _
    · by_cases hsel : q.id ∈ sel
      · rw [duplicateLoop_cons_pos sel fresh q ps k hsel]
        exact List.mem_cons_of_mem _ (List.mem_cons_of_mem _ (ih (k + 1) p hp))
      · rw [duplicateLoop_cons_neg sel fresh q ps k hsel]
        exact List.mem_cons_of_mem _ (ih k p hp)

/-- Helper: every page of the duplicated document is either an input page
or carries a fresh id of index between the counter and the counter plus
the input length. -/
theorem duplicateLoop_id_cases (sel : List String) (fresh : Nat → String) :
    ∀ (ps : List Page) (k : Nat) (q : Page), q ∈ duplicateLoop sel fresh ps k →
      q ∈ ps ∨ ∃ m, k ≤ m ∧ m < k + ps.length ∧ q.id = fresh m := by
  intro ps
  induction ps with
  | nil => intro k q hq; cases hq
  | cons p ps ih =>
    intro k q hq
    by_cases hsel : p.id ∈ sel
    · rw [duplicateLoop_cons_pos sel fresh p ps k hsel] at hq
      rcases List.mem_cons.mp hq with rfl | hq2
      · exact Or.inl (List.mem_cons_self _ _)
      rcases List.mem_cons.mp hq2 with rfl | hq3
      · refine Or.inr ⟨k, le_refl k, ?_, rfl⟩
        simp only [List.length_cons]
        omega
      rcases ih (k + 1) q hq3 with hmem | ⟨m, hm1, hm2, hm3⟩
      · exact Or.inl (List.mem_cons_of_mem _ hmem)
      · refine Or.inr ⟨m, by omega, ?_, hm3⟩
        simp only [List.length_cons]
        omega
    · rw [duplicateLoop_cons_neg sel fresh p ps k hsel] at hq
      rcases List.mem_cons.mp hq with rfl | hq2
      · exact Or.inl (List.mem_cons_self _ _)
      rcases ih k q hq2 with hmem | ⟨m, hm1, hm2, hm3⟩
      · exact Or.inl (List.mem_cons_of_mem _ hmem)
      · refine Or.inr ⟨m, hm1, ?_, hm3⟩
        simp only [List.length_cons]
        omega

/-- Helper: with duplicate-free input ids, injective fresh ids and fresh
ids avoiding the input ids, the duplicated document's ids are
duplicate-free. -/
theorem duplicateLoop_nodup (sel : List String) (fresh : Nat → String) :
    ∀ (ps : List Page) (k : Nat),
      (ps.map (·.id)).Nodup →
      (∀ a b, k ≤ a → a < k + ps.length → k ≤ b → b < k + ps.length → fresh a = fresh b → a = b) →
      (∀ m, k ≤ m → m < k + ps.length → ∀ p ∈ ps, fresh m ≠ p.id) →
      ((duplicateLoop sel fresh ps k).map (·.id)).Nodup := by
  intro ps
  induction ps with
  | nil => intro k _ _ _; simp [duplicateLoop]
  | cons p ps ih =>
    intro k hnodup hinj hfresh
    simp only [List.map_cons, List.nodup_cons] at hnodup
    obtain ⟨hphead, hptail⟩ := hnodup
    have hlen2 : k + ps.length < k + (p :: ps).length := by
      simp only [List.length_cons]
      omega
    have hnotin : ∀ (x : String) (kk : Nat),
        (∀ q ∈ ps, x ≠ q.id) →
        (∀ m, kk ≤ m → m < kk + ps.length → x ≠ fresh m) →
        x ∉ (duplicateLoop sel fresh ps kk).map (·.id) := by
      intro x kk hx1 hx2 hmem
      obtain ⟨q, hq, hqid⟩ := List.mem_map.mp hmem
      rcases duplicateLoop_id_cases sel fresh ps kk q hq with h | ⟨m, hm1, hm2, hm3⟩
      · exact hx1 q h hqid.symm
      · exact hx2 m hm1 hm2 (hqid.symm.trans hm3)
    have hfreshp : ∀ m, k ≤ m → m < k + (p :: ps).length → fresh m ≠ p.id :=
      fun m hm1 hm2 => hfresh m hm1 hm2 p (List.mem_cons_self p ps)
    have hfreshtail : ∀ m, k ≤ m → m < k + (p :: ps).length → ∀ q ∈ ps, fresh m ≠ q.id :=
      fun m hm1 hm2 q hq => hfresh m hm1 hm2 q (List.mem_cons_of_mem p hq)
    by_cases hsel : p.id ∈ sel
    · rw [duplicateLoop_cons_pos sel fresh p ps k hsel]
      simp only [List.map_cons, List.nodup_cons, List.mem_cons]
      refine ⟨?_, ?_, ?_⟩
      · rintro (hfk | hrec)
        · exact hfreshp k (le_refl k) (by omega) hfk.symm
        · exact hnotin p.id (k + 1)
            (fun q hq heq => hphead (List.mem_map.mpr ⟨q, hq, heq.symm⟩))
            (fun m hm1 hm2 heq => hfreshp m (by omega) (by omega) heq.symm)
            hrec
      · exact hnotin (fresh k) (k + 1)
          (fun q hq heq => hfreshtail k (le_refl k) (by omega) q hq heq)
          (fun m hm1 hm2 heq =>
            absurd (hinj k m (le_refl k) (by omega) (by omega) (by omega) heq) (by omega))
      · exact ih (k + 1) hptail
          (fun a b ha1 ha2 hb1 hb2 hab => hinj a b (by omega) (by omega) (by omega) (by omega) hab)
          (fun m hm1 hm2 => hfreshtail m (by omega) (by omega))
    · rw [duplicateLoop_cons_neg sel fresh p ps k hsel]
      simp only [List.map_cons, List.nodup_cons]
      refine ⟨?_, ?_⟩
      · exact hnotin p.id k
          (fun q hq heq => hphead (List.mem_map.mpr ⟨q, hq, heq.symm⟩))
          (fun m hm1 hm2 heq => hfreshp m hm1 (by omega) heq.symm)
      · exact ih k hptail
          (fun a b ha1 ha2 hb1 hb2 hab => hinj a b ha1 (by omega) hb1 (by omega) hab)
          (fun m hm1 hm2 => hfreshtail m hm1 (by omega))

/-- C2: Duplicate: for every page whose id is selected, duplicateSelected
inserts an immediate successor that is a structural copy (same source
reference, page index, type, rotation and an equal, independently owned
overlay list) with a fresh id, interleaved in place rather than appended;
assuming the environment-generated ids are fresh and distinct, the
resulting ids are duplicate-free; and pushing an overlay onto the
duplicate (which carries a fresh id) leaves every original page record,
overlays included, unchanged in the document. -/
theorem c2_duplicate (sel : List String) (fresh : Nat → String) (pages : List Page)
    (hnodup : (pages.map (·.id)).Nodup)
    (hinj : ∀ a b, a < pages.length → b < pages.length → fresh a = fresh b → a = b)
    (hfresh : ∀ m, m < pages.length → ∀ p ∈ pages, fresh m ≠ p.id) :
    (duplicateLoop sel fresh pages 0).map stripPageId
        = pages.flatMap (fun p =>
            if sel.contains p.id then [stripPageId p, stripPageId p] else [stripPageId p]) ∧
    ((duplicateLoop sel fresh pages 0).map (·.id)).Nodup ∧
    ∀ (ov : TextOverlay) (m : Nat), m < pages.length → ∀ p ∈ pages,
      p ∈ addOverlayToPage (fresh m) ov (duplicateLoop sel fresh pages 0) := by
  refine ⟨duplicateLoop_strip sel fresh pages 0, ?_, ?_⟩
  · exact duplicateLoop_nodup sel fresh pages 0 hnodup
      (fun a b ha1 ha2 hb1 hb2 hab => hinj a b (by omega) (by omega) hab)
      (fun m hm1 hm2 p hp => hfresh m (by omega) p hp)
  · intro ov m hm p hp
    have hmem := mem_duplicateLoop_self sel fresh pages 0 p hp
    have hne : ¬ (p.id = fresh m) := fun h => hfresh m hm p hp h.symm
    unfold addOverlayToPage
    have h2 := List.mem_map_of_mem
      (fun q => if q.id = fresh m then { q with textOverlays := q.textOverlays ++ [ov] } else q)
      hmem
    simpa [hne] using h2

/-- C2 witness: duplicating the only page of a one-page document with the
fresh id d0: the ids of the result are duplicate-free and pushing an
overlay onto the duplicate leaves the original page record in place. -/
theorem c2_witness :
    ((duplicateLoop ["a"] (fun _ => "d0") [pA] 0).map (·.id)).Nodup ∧
    pA ∈ addOverlayToPage "d0" topCenterOverlay (duplicateLoop ["a"] (fun _ => "d0") [pA] 0) := by
  have h := c2_duplicate ["a"] (fun _ => "d0") [pA] (by decide)
    (fun a b ha hb _ => by
      simp only [List.length_cons, List.length_nil] at ha hb
      omega)
    (by decide)
  exact ⟨h.2.1, h.2.2 topCenterOverlay 0 (by decide) pA (by decide)⟩

/-! ## The empty-workspace invariant (C9) -/

/-- Helper: after updateStatus, an empty page list forces an empty source
registry, because the empty case runs the full workspace clear. -/
theorem updateStatus_inv (s : AppState) :
    (updateStatus s).pages = [] → (updateStatus s).sourceFiles = [] := by
  unfold updateStatus
  by_cases h : s.pages.isEmpty = true
  · rw [if_pos h]
    intro _
    rfl
  · rw [if_neg h]
    intro hp
    exact absurd (by rw [hp]; rfl) h

/-- Helper: if the page list is empty after updateStatus it was already
empty before. -/
theorem pages_empty_of_updateStatus (s : AppState) (hp : (updateStatus s).pages = []) :
    s.pages = [] := by
  unfold updateStatus at hp
  by_cases h : s.pages.isEmpty = true
  · exact List.isEmpty_iff.mp h
  · rw [if_neg h] at hp
    exact hp

/-- Helper: updateStatus on an empty document is the full clear. -/
theorem updateStatus_eq_clear (s : AppState) (h : s.pages = []) :
    updateStatus s = clearWorkspace s := by
  unfold updateStatus
  rw [if_pos (by rw [h]; rfl)]

/-- Helper: restoreState preserves the empty-implies-cleared relation
between pages and sources, because it ends in updateStatus followed by a
write that touches only the persisted record. -/
theorem restoreState_inv (s : AppState) (snap : List SnapPage) :
    (restoreState s snap).pages = [] → (restoreState s snap).sourceFiles = [] := by
  unfold restoreState
  exact updateStatus_inv _

/-- Helper: rotateFirst does not change the number of pages. -/
theorem rotateFirst_length (angle : Int) (id : String) :
    ∀ ps : List Page, (rotateFirst angle id ps).length = ps.length := by
  intro ps
  induction ps with
  | nil => rfl
  | cons p ps ih =>
    unfold rotateFirst
    by_cases hid : (p.id == id) = true
    · rw [if_pos hid]
      simp
    · rw [if_neg hid]
      simp [ih]

/-- Helper: the rotatePages loop does not change the number of pages. -/
theorem foldl_rotateFirst_length (angle : Int) :
    ∀ (ids : List String) (ps : List Page),
      (ids.foldl (fun pgs i => rotateFirst angle i pgs) ps).length = ps.length := by
  intro ids
  induction ids with
  | nil => intro ps; rfl
  | cons i ids ih =>
    intro ps
    rw [List.foldl_cons, ih, rotateFirst_length]

/-- Helper: rotatePages preserves the empty-implies-cleared relation. -/
theorem rotatePages_inv (s : AppState) (ids : List String) (angle : Int)
    (h : s.pages = [] → s.sourceFiles = []) :
    (rotatePages s ids angle).pages = [] → (rotatePages s ids angle).sourceFiles = [] := by
  intro hp
  have hlen := foldl_rotateFirst_length angle ids (saveState s).pages
  have hp2 : (rotatePages s ids angle).pages
      = ids.foldl (fun pgs i => rotateFirst angle i pgs) (saveState s).pages := rfl
  rw [hp2] at hp
  rw [hp] at hlen
  have hsp : s.pages = [] := List.length_eq_zero.mp hlen.symm
  exact h hsp

/-- Helper: addFiles preserves the empty-implies-cleared relation. -/
theorem addFiles_inv (s : AppState) (files : List IngestFile)
    (h : s.pages = [] → s.sourceFiles = []) :
    (addFiles s files).pages = [] → (addFiles s files).sourceFiles = [] := by
  unfold addFiles
  split
  · exact h
  · exact updateStatus_inv _

/-- Helper: insertBlankPage preserves the empty-implies-cleared
relation. -/
theorem insertBlankPage_inv (s : AppState) (pid : String) :
    (insertBlankPage s pid).pages = [] → (insertBlankPage s pid).sourceFiles = [] := by
  unfold insertBlankPage
  exact updateStatus_inv _

/-- Helper: deletePages preserves the empty-implies-cleared relation. -/
theorem deletePages_inv (s : AppState) (ids : List String) :
    (deletePages s ids).pages = [] → (deletePages s ids).sourceFiles = [] := by
  unfold deletePages
  exact updateStatus_inv _

/-- Helper: duplicateSelected preserves the empty-implies-cleared
relation. -/
theorem duplicateSelected_inv (s : AppState) (fresh : Nat → String)
    (h : s.pages = [] → s.sourceFiles = []) :
    (duplicateSelected s fresh).pages = [] → (duplicateSelected s fresh).sourceFiles = [] := by
  unfold duplicateSelected
  split
  · exact h
  · exact updateStatus_inv _

/-- Helper: rotateSelectedPages preserves the empty-implies-cleared
relation. -/
theorem rotateSelectedPages_inv (s : AppState) (angle : Int)
    (h : s.pages = [] → s.sourceFiles = []) :
    (rotateSelectedPages s angle).pages = []
      → (rotateSelectedPages s angle).sourceFiles = [] := by
  unfold rotateSelectedPages
  split
  · exact h
  · exact rotatePages_inv s _ angle h

/-- Helper: sortByNumber preserves the empty-implies-cleared relation. -/
theorem sortByNumber_inv (s : AppState) (vals : String → String)
    (h : s.pages = [] → s.sourceFiles = []) :
    (sortByNumber s vals).pages = [] → (sortByNumber s vals).sourceFiles = [] := by
  intro hp
  have hperm := List.perm_insertionSort
    (fun a b => sortKey vals a.id ≤ sortKey vals b.id) (saveState s).pages
  have hp2 : (sortByNumber s vals).pages = sortByNumberPages vals (saveState s).pages := rfl
  rw [hp2] at hp
  unfold sortByNumberPages at hp
  rw [hp] at hperm
  exact h hperm.nil_eq.symm

/-- Helper: applyTextToPages never touches the source registry. -/
theorem applyTextToPages_sources (s : AppState) (onlySelected : Bool) (ov : TextOverlay) :
    (applyTextToPages s onlySelected ov).sourceFiles = s.sourceFiles := by
  unfold applyTextToPages
  repeat' split
  all_goals rfl

/-- Helper: if applyTextToPages leaves no pages, there were none to begin
with, since every branch keeps the page count. -/
theorem applyTextToPages_pages_empty (s : AppState) (onlySelected : Bool) (ov : TextOverlay)
    (hp : (applyTextToPages s onlySelected ov).pages = []) : s.pages = [] := by
  unfold applyTextToPages at hp
  repeat' split at hp
  all_goals first
    | exact hp
    | exact List.map_eq_nil_iff.mp hp

/-- Helper: applyTextToPages preserves the empty-implies-cleared
relation. -/
theorem applyTextToPages_inv (s : AppState) (onlySelected : Bool) (ov : TextOverlay)
    (h : s.pages = [] → s.sourceFiles = []) :
    (applyTextToPages s onlySelected ov).pages = []
      → (applyTextToPages s onlySelected ov).sourceFiles = [] := by
  intro hp
  rw [applyTextToPages_sources]
  exact h (applyTextToPages_pages_empty s onlySelected ov hp)

/-- Helper: the gated drag reorder preserves the empty-implies-cleared
relation, since a permutation of the page ids rebuilds as many pages as
there were. -/
theorem dragReorder_inv (s : AppState) (newIds : List String)
    (h : s.pages = [] → s.sourceFiles = []) :
    (dragReorder s newIds).pages = [] → (dragReorder s newIds).sourceFiles = [] := by
  unfold dragReorder
  split
  · intro hp
    next hperm =>
    have hperm2 : newIds.Perm (s.pages.map (·.id)) := List.isPerm_iff.mp hperm
    cases hids : newIds with
    | nil =>
      rw [hids] at hperm2
      have hmap : s.pages.map (·.id) = [] := hperm2.nil_eq.symm
      exact h (List.map_eq_nil_iff.mp hmap)
    | cons i rest =>
      exfalso
      have hi : i ∈ newIds := by rw [hids]; exact List.mem_cons_self i rest
      have hi2 : i ∈ s.pages.map (·.id) := hperm2.mem_iff.mp hi
      obtain ⟨p, hpmem, hpid⟩ := List.mem_map.mp hi2
      have hfound : ((saveState s).pages.find? (fun q => q.id == i)).isSome = true := by
        rw [List.find?_isSome]
        exact ⟨p, hpmem, by simp [hpid]⟩
      obtain ⟨q, hq⟩ := Option.isSome_iff_exists.mp hfound
      have hsome : some q ∈ updateDataOrderFromDOMOpt newIds (saveState s).pages := by
        unfold updateDataOrderFromDOMOpt
        rw [← hq]
        exact List.mem_map_of_mem _ hi
      have hqmem : q ∈ (updateDataOrderFromDOMOpt newIds (saveState s).pages).reduceOption :=
        List.reduceOption_mem_iff.mpr hsome
      have hp2 : (updateDataOrderFromDOMOpt newIds (saveState s).pages).reduceOption = [] := hp
      rw [hp2] at hqmem
      cases hqmem
  · exact h

/-- Helper: performUndo preserves the empty-implies-cleared relation. -/
theorem performUndo_inv (s : AppState) (h : s.pages = [] → s.sourceFiles = []) :
    (performUndo s).pages = [] → (performUndo s).sourceFiles = [] := by
  unfold performUndo
  split
  · exact h
  · exact restoreState_inv _ _

/-- Helper: performRedo preserves the empty-implies-cleared relation. -/
theorem performRedo_inv (s : AppState) (h : s.pages = [] → s.sourceFiles = []) :
    (performRedo s).pages = [] → (performRedo s).sourceFiles = [] := by
  unfold performRedo
  split
  · exact h
  · exact restoreState_inv _ _

/-- Helper: the empty-implies-cleared relation is preserved by every
user-triggerable operation. -/
theorem applyOp_inv9 (s : AppState) (op : Op) (h : s.pages = [] → s.sourceFiles = []) :
    (applyOp s op).pages = [] → (applyOp s op).sourceFiles = [] := by
  cases op with
  | addFiles files => exact addFiles_inv s files h
  | insertBlank pid => exact insertBlankPage_inv s pid
  | deletePages ids => exact deletePages_inv s ids
  | duplicateSelected fresh => exact duplicateSelected_inv s fresh h
  | rotateSelected angle => exact rotateSelectedPages_inv s angle h
  | rotatePages ids angle => exact rotatePages_inv s ids angle h
  | sortByNumber vals => exact sortByNumber_inv s vals h
  | applyText onlySelected ov => exact applyTextToPages_inv s onlySelected ov h
  | dragReorder newIds => exact dragReorder_inv s newIds h
  | setSelection ids => exact h
  | performUndo => exact performUndo_inv s h
  | performRedo => exact performRedo_inv s h
  | clearWorkspace => intro _; rfl

/-- Helper: the empty-implies-cleared relation holds along any run. -/
theorem runOps_inv9 : ∀ (ops : List Op) (s : AppState),
    (s.pages = [] → s.sourceFiles = []) →
    ((runOps s ops).pages = [] → (runOps s ops).sourceFiles = []) := by
  intro ops
  induction ops with
  | nil => intro s h; exact h
  | cons op rest ih => intro s h; exact ih (applyOp s op) (applyOp_inv9 s op h)

/-- Helper: a deletion that empties the document runs the full clear,
leaving no sources and no persisted record. -/
theorem deletePages_clears (s : AppState) (ids : List String)
    (hp : (deletePages s ids).pages = []) :
    (deletePages s ids).sourceFiles = [] ∧ (deletePages s ids).db = none := by
  unfold deletePages at hp ⊢
  have h0 := pages_empty_of_updateStatus _ hp
  rw [updateStatus_eq_clear _ h0]
  exact ⟨rfl, rfl⟩

/-- C9 counterexample: the claim says every mutation leaving zero pages
erases the persisted session; but after adding an image, clearing the
workspace and undoing once, the document is empty while the persisted
record written by restoreState after the clear still holds the restored
snapshot entry, so a persisted session remains in storage. -/
theorem c9_counterexample :
    (runOps initState [Op.addFiles [imgIngest], Op.clearWorkspace, Op.performUndo]).pages = [] ∧
    (runOps initState [Op.addFiles [imgIngest], Op.clearWorkspace, Op.performUndo]).db
      = some ⟨[], [snapPage pgA]⟩ ∧
    (runOps initState [Op.addFiles [imgIngest], Op.clearWorkspace, Op.performUndo]).db
      ≠ none := by
  decide

/-- C9 amended: whenever a committed operation leaves the document with
zero pages, the workspace clear empties the source registry, so
pages-empty-implies-sources-empty holds in every reachable post-operation
state; and a deletion that empties the document also erases the persisted
record.  (An undo or redo restoring into an emptied workspace re-writes a
persisted record after the clear, so the storage part fails there, per
the counterexample.) -/
theorem c9_amended :
    (∀ ops : List Op,
      (runOps initState ops).pages = [] → (runOps initState ops).sourceFiles = []) ∧
    (∀ (s : AppState) (ids : List String), (deletePages s ids).pages = [] →
      (deletePages s ids).sourceFiles = [] ∧ (deletePages s ids).db = none) := by
  constructor
  · intro ops
    exact runOps_inv9 ops initState (fun _ => rfl)
  · intro s ids hp
    exact deletePages_clears s ids hp

/-- C9 witness: deleting the only page of a one-page workspace leaves no
sources and no persisted record. -/
theorem c9_witness :
    (deletePages stA ["p1"]).sourceFiles = [] ∧ (deletePages stA ["p1"]).db = none :=
  c9_amended.2 stA ["p1"] (by decide)

/-! ## The history round trip (C1, C8) -/

/-- Helper: updateStatus is the identity on a nonempty document. -/
theorem updateStatus_of_ne (s : AppState) (h : s.pages ≠ []) : updateStatus s = s := by
  unfold updateStatus
  rw [if_neg (by simpa [List.isEmpty_iff] using h)]

/-- Helper: restoring the snapshot of a page list whose source references
all resolve rebuilds exactly that page list. -/
theorem restorePages_snapshot (S : List SourceFile) :
    ∀ pg : List Page, pagesResolve S pg = true → restorePages S (snapshotOfPages pg) = pg := by
  intro pg
  induction pg with
  | nil => intro _; rfl
  | cons p ps ih =>
    intro hres
    simp only [pagesResolve, List.all_cons, Bool.and_eq_true, decide_eq_true_eq] at hres
    obtain ⟨hp, htail⟩ := hres
    have htail2 : pagesResolve S ps = true := by
      simp only [pagesResolve]
      exact htail
    simp only [snapshotOfPages, List.map_cons, restorePages]
    rw [show (snapPage p).sourceFileId = p.sourceFile.id from rfl, hp]
    have ihe := ih htail2
    simp only [snapshotOfPages] at ihe
    rw [ihe]
    rfl

/-- Helper: one undo on a state whose history top is the snapshot of a
nonempty, fully resolving page list restores exactly that list, moves a
snapshot of the current pages to the redo stack, keeps the sources, and
re-persists the restored snapshot. -/
theorem performUndo_clean (τ : AppState) (q : List Page) (rest : List (List SnapPage))
    (hh : τ.historyStack = snapshotOfPages q :: rest)
    (hq : q ≠ [])
    (hres : pagesResolve τ.sourceFiles q = true) :
    performUndo τ = { τ with
      pages := q
      selectedPageIds := []
      historyStack := rest
      redoStack := snapshotOfPages τ.pages :: τ.redoStack
      db := some ⟨τ.sourceFiles, snapshotOfPages q⟩ } := by
  unfold performUndo
  rw [hh]
  show restoreState
    { τ with redoStack := snapshotCurrentState τ :: τ.redoStack, historyStack := rest }
    (snapshotOfPages q) = _
  unfold restoreState
  have hres2 : restorePages
      ({ τ with redoStack := snapshotCurrentState τ :: τ.redoStack, historyStack := rest }
        : AppState).sourceFiles
      (snapshotOfPages q) = q :=
    restorePages_snapshot τ.sourceFiles q hres
  rw [hres2]
  dsimp only
  rw [updateStatus_of_ne _ (by exact hq)]
  simp [snapshotCurrentState]

/-- Helper: one redo on a state whose redo top is the snapshot of a
nonempty, fully resolving page list restores exactly that list, pushes a
snapshot of the current pages onto the history stack uncapped, keeps the
sources, and re-persists the restored snapshot. -/
theorem performRedo_clean (τ : AppState) (q : List Page) (rest : List (List SnapPage))
    (hh : τ.redoStack = snapshotOfPages q :: rest)
    (hq : q ≠ [])
    (hres : pagesResolve τ.sourceFiles q = true) :
    performRedo τ = { τ with
      pages := q
      selectedPageIds := []
      historyStack := snapshotOfPages τ.pages :: τ.historyStack
      redoStack := rest
      db := some ⟨τ.sourceFiles, snapshotOfPages q⟩ } := by
  unfold performRedo
  rw [hh]
  show restoreState
    { τ with historyStack := snapshotCurrentState τ :: τ.historyStack, redoStack := rest }
    (snapshotOfPages q) = _
  unfold restoreState
  have hres2 : restorePages
      ({ τ with historyStack := snapshotCurrentState τ :: τ.historyStack, redoStack := rest }
        : AppState).sourceFiles
      (snapshotOfPages q) = q :=
    restorePages_snapshot τ.sourceFiles q hres
  rw [hres2]
  dsimp only
  rw [updateStatus_of_ne _ (by exact hq)]
  simp [snapshotCurrentState]

/-- Helper: the default-carrying last element of a cons. -/
theorem getLast?_cons_getD (a : List Page) (l : List (List Page)) (d : List Page) :
    ((a :: l).getLast?).getD d = (l.getLast?).getD a := by
  cases l with
  | nil => rfl
  | cons b l =>
    rw [List.getLast?_cons_cons]
    have hs : ((b :: l).getLast?).isSome = true := List.getLast?_isSome.mpr (by simp)
    obtain ⟨x, hx⟩ := Option.isSome_iff_exists.mp hs
    rw [hx]
    rfl

/-- Helper: undoing once per stacked snapshot walks the document back to
the oldest snapshot, empties that part of the history stack, keeps the
sources, and accumulates the redo stack in reverse push order. -/
theorem undoPhase :
    ∀ (qs : List (List Page)) (τ : AppState) (h0 : List (List SnapPage)),
      τ.historyStack = qs.map snapshotOfPages ++ h0 →
      (∀ q ∈ qs, q ≠ [] ∧ pagesResolve τ.sourceFiles q = true) →
      (performUndo^[qs.length] τ).sourceFiles = τ.sourceFiles ∧
      (performUndo^[qs.length] τ).historyStack = h0 ∧
      (performUndo^[qs.length] τ).pages = (qs.getLast?).getD τ.pages ∧
      (performUndo^[qs.length] τ).redoStack
        = (((τ.pages :: qs).dropLast).map snapshotOfPages).reverse ++ τ.redoStack := by
  intro qs
  induction qs with
  | nil =>
    intro τ h0 hh _
    exact ⟨rfl, by simpa using hh, rfl, by simp⟩
  | cons q qs ih =>
    intro τ h0 hh hcond
    obtain ⟨hqne, hqres⟩ := hcond q (List.mem_cons_self q qs)
    have hh2 : τ.historyStack = snapshotOfPages q :: (qs.map snapshotOfPages ++ h0) := by
      simpa using hh
    have hstep := performUndo_clean τ q (qs.map snapshotOfPages ++ h0) hh2 hqne hqres
    have hlen : (q :: qs).length = qs.length + 1 := rfl
    rw [hlen, Function.iterate_succ_apply, hstep]
    have hcond2 : ∀ x ∈ qs, x ≠ [] ∧ pagesResolve ({ τ with
        pages := q
        selectedPageIds := []
        historyStack := qs.map snapshotOfPages ++ h0
        redoStack := snapshotOfPages τ.pages :: τ.redoStack
        db := some ⟨τ.sourceFiles, snapshotOfPages q⟩ } : AppState).sourceFiles x = true :=
      fun x hx => hcond x (List.mem_cons_of_mem q hx)
    obtain ⟨ihs, ihh, ihp, ihr⟩ := ih _ h0 rfl hcond2
    refine ⟨by rw [ihs], by rw [ihh], ?_, ?_⟩
    · rw [ihp]
      exact (getLast?_cons_getD q qs τ.pages).symm
    · rw [ihr]
      rw [show (τ.pages :: q :: qs).dropLast = τ.pages :: (q :: qs).dropLast from rfl]
      simp [List.reverse_cons, List.append_assoc]

/-- Helper: redoing once per stacked redo snapshot walks the document
forward to the oldest redo entry, keeps the sources and consumes that part
of the redo stack. -/
theorem redoPhase :
    ∀ (rs : List (List Page)) (τ : AppState) (r0 : List (List SnapPage)),
      τ.redoStack = rs.map snapshotOfPages ++ r0 →
      (∀ q ∈ rs, q ≠ [] ∧ pagesResolve τ.sourceFiles q = true) →
      (performRedo^[rs.length] τ).sourceFiles = τ.sourceFiles ∧
      (performRedo^[rs.length] τ).redoStack = r0 ∧
      (performRedo^[rs.length] τ).pages = (rs.getLast?).getD τ.pages := by
  intro rs
  induction rs with
  | nil =>
    intro τ r0 hh _
    exact ⟨rfl, by simpa using hh, rfl⟩
  | cons q rs ih =>
    intro τ r0 hh hcond
    obtain ⟨hqne, hqres⟩ := hcond q (List.mem_cons_self q rs)
    have hh2 : τ.redoStack = snapshotOfPages q :: (rs.map snapshotOfPages ++ r0) := by
      simpa using hh
    have hstep := performRedo_clean τ q (rs.map snapshotOfPages ++ r0) hh2 hqne hqres
    have hlen : (q :: rs).length = rs.length + 1 := rfl
    rw [hlen, Function.iterate_succ_apply, hstep]
    have hcond2 : ∀ x ∈ rs, x ≠ [] ∧ pagesResolve ({ τ with
        pages := q
        selectedPageIds := []
        historyStack := snapshotOfPages τ.pages :: τ.historyStack
        redoStack := rs.map snapshotOfPages ++ r0
        db := some ⟨τ.sourceFiles, snapshotOfPages q⟩ } : AppState).sourceFiles x = true :=
      fun x hx => hcond x (List.mem_cons_of_mem q hx)
    obtain ⟨ihs, ihh, ihp⟩ := ih _ r0 rfl hcond2
    refine ⟨by rw [ihs], by rw [ihh], ?_⟩
    rw [ihp]
    exact (getLast?_cons_getD q rs τ.pages).symm

/-- Helper: components of one clean capture-then-edit step. -/
theorem capturesWithCap_spec (s : AppState) (op : Op) (h : capturesWithCap s op = true) :
    (applyOp s op).historyStack = (snapshotOfPages s.pages :: s.historyStack).take maxHistory ∧
    (applyOp s op).sourceFiles = s.sourceFiles ∧
    (applyOp s op).redoStack = [] := by
  simp only [capturesWithCap, Bool.and_eq_true, decide_eq_true_eq, List.isEmpty_iff] at h
  exact ⟨h.1.1, h.1.2, h.2⟩

/-- Helper: components of a clean run's head step. -/
theorem cleanEditRun_cons (s : AppState) (op : Op) (rest : List Op)
    (h : cleanEditRun s (op :: rest) = true) :
    capturesWithCap s op = true ∧ (applyOp s op).pages ≠ [] ∧
    pagesResolve (applyOp s op).sourceFiles (applyOp s op).pages = true ∧
    cleanEditRun (applyOp s op) rest = true := by
  simp only [cleanEditRun, Bool.and_eq_true, Bool.not_eq_true', List.isEmpty_eq_false] at h
  exact ⟨h.1.1.1, h.1.1.2, h.1.2, h.2⟩

/-- Helper: capping after appending an already capped tail is capping the
whole append. -/
theorem take_append_take (n : Nat) (A B : List (List SnapPage)) :
    (A ++ B.take n).take n = (A ++ B).take n := by
  rw [List.take_append_eq_append_take, List.take_append_eq_append_take, List.take_take,
    Nat.min_eq_left (Nat.sub_le n A.length)]

/-- Helper: the page trail has one entry per operation. -/
theorem pageTrail_length : ∀ (ops : List Op) (s : AppState),
    (pageTrail s ops).length = ops.length := by
  intro ops
  induction ops with
  | nil => intro s; rfl
  | cons op rest ih =>
    intro s
    simp [pageTrail, ih]

/-- Helper: the oldest trail entry is the run's starting page list. -/
theorem pageTrail_getLast (ops : List Op) (s : AppState) (h : ops ≠ []) :
    (pageTrail s ops).getLast? = some s.pages := by
  cases ops with
  | nil => exact absurd rfl h
  | cons op rest => exact List.getLast?_concat _

/-- Helper: every entry of a clean run's page trail is a nonempty page
list all of whose source references resolve against the starting source
registry. -/
theorem pageTrail_spec : ∀ (ops : List Op) (s : AppState),
    cleanEditRun s ops = true →
    pagesResolve s.sourceFiles s.pages = true →
    s.pages ≠ [] →
    ∀ q ∈ pageTrail s ops, q ≠ [] ∧ pagesResolve s.sourceFiles q = true := by
  intro ops
  induction ops with
  | nil => intro s _ _ _ q hq; cases hq
  | cons op rest ih =>
    intro s hclean hres hne q hq
    obtain ⟨hcap, hne1, hres1, hclean1⟩ := cleanEditRun_cons s op rest hclean
    obtain ⟨hh, hsrc, hredo⟩ := capturesWithCap_spec s op hcap
    simp only [pageTrail, List.mem_append, List.mem_singleton] at hq
    rcases hq with hq | rfl
    · have := ih (applyOp s op) hclean1 hres1 hne1 q hq
      rwa [hsrc] at this
    · exact ⟨hne, hres⟩

/-- Helper: the state after a nonempty clean run keeps the sources, has an
empty redo stack, and carries the capped trail of pre-state snapshots on
its history stack. -/
theorem runOps_shape : ∀ (ops : List Op) (s : AppState), ops ≠ [] →
    cleanEditRun s ops = true →
    (runOps s ops).sourceFiles = s.sourceFiles ∧
    (runOps s ops).redoStack = [] ∧
    (runOps s ops).historyStack
      = ((pageTrail s ops).map snapshotOfPages ++ s.historyStack).take maxHistory := by
  intro ops
  induction ops with
  | nil => intro s h; exact absurd rfl h
  | cons op rest ih =>
    intro s _ hclean
    obtain ⟨hcap, hne1, hres1, hclean1⟩ := cleanEditRun_cons s op rest hclean
    obtain ⟨hh, hsrc, hredo⟩ := capturesWithCap_spec s op hcap
    have hrun : runOps s (op :: rest) = runOps (applyOp s op) rest := rfl
    by_cases hrest : rest = []
    · subst hrest
      refine ⟨hsrc, hredo, ?_⟩
      rw [hrun]
      show (applyOp s op).historyStack = _
      rw [hh]
      simp [pageTrail]
    · obtain ⟨ihs, ihr, ihh⟩ := ih (applyOp s op) hrest hclean1
      refine ⟨?_, ?_, ?_⟩
      · rw [hrun, ihs, hsrc]
      · rw [hrun, ihr]
      · rw [hrun, ihh, hh]
        have : (pageTrail (applyOp s op) rest).map snapshotOfPages
              ++ (snapshotOfPages s.pages :: s.historyStack).take maxHistory
            = (pageTrail (applyOp s op) rest).map snapshotOfPages
              ++ ((snapshotOfPages s.pages :: s.historyStack).take maxHistory) := rfl
        rw [take_append_take]
        simp [pageTrail, List.append_assoc]

/-- Helper: the state after a nonempty clean run has a nonempty, fully
resolving page list. -/
theorem runOps_final : ∀ (ops : List Op) (s : AppState), ops ≠ [] →
    cleanEditRun s ops = true →
    (runOps s ops).pages ≠ [] ∧ pagesResolve s.sourceFiles (runOps s ops).pages = true := by
  intro ops
  induction ops with
  | nil => intro s h; exact absurd rfl h
  | cons op rest ih =>
    intro s _ hclean
    obtain ⟨hcap, hne1, hres1, hclean1⟩ := cleanEditRun_cons s op rest hclean
    obtain ⟨hh, hsrc, hredo⟩ := capturesWithCap_spec s op hcap
    have hrun : runOps s (op :: rest) = runOps (applyOp s op) rest := rfl
    by_cases hrest : rest = []
    · subst hrest
      rw [hrun]
      exact ⟨hne1, by rwa [hsrc] at hres1⟩
    · obtain ⟨ih1, ih2⟩ := ih (applyOp s op) hrest hclean1
      rw [hrun]
      exact ⟨ih1, by rwa [hsrc] at ih2⟩

/-- Helper: dropping the last of a cons with a nonempty tail keeps the
head. -/
theorem dropLast_cons_of_ne (a : List Page) (l : List (List Page)) (h : l ≠ []) :
    (a :: l).dropLast = a :: l.dropLast := by
  cases l with
  | nil => exact absurd rfl h
  | cons b l => rfl

set_option maxRecDepth 100000 in
/-- C1 counterexample: the claim quantifies over any sequence of captured
mutations, but the 20-entry history cap evicts the oldest snapshot: after
21 rotations of a one-page document, 21 undos leave the page at rotation
90 instead of its original rotation 0. -/
theorem c1_counterexample :
    (performUndo^[21] (runOps stA (List.replicate 21 (Op.rotatePages ["p1"] 90)))).pages
      = [{ pgA with rotation := 90 }] ∧
    stA.pages = [pgA] ∧
    pgA.rotation = 0 ∧
    (performUndo^[21] (runOps stA (List.replicate 21 (Op.rotatePages ["p1"] 90)))).pages
      ≠ stA.pages := by
  decide

/-- C1 amended: for any sequence of capture-then-edit operations from a
state with a nonempty, fully resolving document, provided the prior
history depth plus the number of operations stays within the 20-entry
cap (so nothing is evicted) and every intermediate document stays
nonempty and resolving (so no workspace clear fires), undoing once per
operation returns the page sequence, rotations and overlays included, to
its state before the first operation (selection is not restored), and
redoing once per operation then returns it to the state after the last
operation. -/
theorem c1_amended (s0 : AppState) (ops : List Op)
    (hne : s0.pages ≠ [])
    (hres : pagesResolve s0.sourceFiles s0.pages = true)
    (hclean : cleanEditRun s0 ops = true)
    (hcap : s0.historyStack.length + ops.length ≤ maxHistory) :
    (performUndo^[ops.length] (runOps s0 ops)).pages = s0.pages ∧
    (performRedo^[ops.length] (performUndo^[ops.length] (runOps s0 ops))).pages
      = (runOps s0 ops).pages := by
  by_cases hops : ops = []
  · subst hops
    exact ⟨rfl, rfl⟩
  · obtain ⟨hsrc, hredo, hhist⟩ := runOps_shape ops s0 hops hclean
    have htrlen : (pageTrail s0 ops).length = ops.length := pageTrail_length ops s0
    have hlenle : ((pageTrail s0 ops).map snapshotOfPages ++ s0.historyStack).length
        ≤ maxHistory := by
      rw [List.length_append, List.length_map, htrlen]
      omega
    have hhist2 : (runOps s0 ops).historyStack
        = (pageTrail s0 ops).map snapshotOfPages ++ s0.historyStack := by
      rw [hhist, List.take_of_length_le hlenle]
    have hspec := pageTrail_spec ops s0 hclean hres hne
    have hcond : ∀ q ∈ pageTrail s0 ops,
        q ≠ [] ∧ pagesResolve (runOps s0 ops).sourceFiles q = true := by
      intro q hq
      obtain ⟨h1, h2⟩ := hspec q hq
      exact ⟨h1, by rw [hsrc]; exact h2⟩
    have hu := undoPhase (pageTrail s0 ops) (runOps s0 ops) s0.historyStack hhist2 hcond
    rw [htrlen] at hu
    obtain ⟨hus, huh, hup, hur⟩ := hu
    have hlast := pageTrail_getLast ops s0 hops
    have hpages : (performUndo^[ops.length] (runOps s0 ops)).pages = s0.pages := by
      rw [hup, hlast]
      rfl
    refine ⟨hpages, ?_⟩
    obtain ⟨hfin1, hfin2⟩ := runOps_final ops s0 hops hclean
    have htrne : pageTrail s0 ops ≠ [] := by
      intro hcon
      apply hops
      rw [hcon] at htrlen
      exact List.length_eq_zero.mp (by simpa using htrlen.symm)
    have hredo2 : (performUndo^[ops.length] (runOps s0 ops)).redoStack
        = ((((runOps s0 ops).pages :: pageTrail s0 ops).dropLast).reverse).map snapshotOfPages
          ++ [] := by
      rw [hur, hredo]
      simp [List.map_reverse]
    have hsources : (performUndo^[ops.length] (runOps s0 ops)).sourceFiles = s0.sourceFiles := by
      rw [hus, hsrc]
    have hconds2 : ∀ q ∈ (((runOps s0 ops).pages :: pageTrail s0 ops).dropLast).reverse,
        q ≠ [] ∧ pagesResolve (performUndo^[ops.length] (runOps s0 ops)).sourceFiles q = true := by
      intro q hq
      rw [List.mem_reverse] at hq
      have hq2 : q ∈ (runOps s0 ops).pages :: pageTrail s0 ops :=
        List.dropLast_subset _ hq
      rcases List.mem_cons.mp hq2 with rfl | hq3
      · exact ⟨hfin1, by rw [hsources]; exact hfin2⟩
      · obtain ⟨h1, h2⟩ := hspec q hq3
        exact ⟨h1, by rw [hsources]; exact h2⟩
    have hr := redoPhase ((((runOps s0 ops).pages :: pageTrail s0 ops).dropLast).reverse)
      (performUndo^[ops.length] (runOps s0 ops)) [] hredo2 hconds2
    have hrslen : ((((runOps s0 ops).pages :: pageTrail s0 ops).dropLast).reverse).length
        = ops.length := by
      rw [List.length_reverse, List.length_dropLast, List.length_cons, htrlen]
      omega
    rw [hrslen] at hr
    obtain ⟨hrs, hrr, hrp⟩ := hr
    rw [hrp, List.getLast?_reverse, dropLast_cons_of_ne _ _ htrne]
    rfl

/-- C1 witness: two rotations of a one-page workspace, undone twice and
redone twice. -/
theorem c1_witness :
    (performUndo^[2] (runOps stA [Op.rotatePages ["p1"] 90, Op.rotatePages ["p1"] 90])).pages
      = stA.pages ∧
    (performRedo^[2] (performUndo^[2]
        (runOps stA [Op.rotatePages ["p1"] 90, Op.rotatePages ["p1"] 90]))).pages
      = (runOps stA [Op.rotatePages ["p1"] 90, Op.rotatePages ["p1"] 90]).pages :=
  c1_amended stA [Op.rotatePages ["p1"] 90, Op.rotatePages ["p1"] 90]
    (by decide) (by decide) (by decide) (by decide)


/-! ## The history depth bound (C8) -/

/-- The depth invariant maintained by every operation: the history stack
holds at most maxHistory snapshots, and history and redo stacks together
hold at most maxHistory snapshots. -/
def stacksOK (s : AppState) : Prop :=
  s.historyStack.length ≤ 20 ∧ s.historyStack.length + s.redoStack.length ≤ 20

instance (s : AppState) : Decidable (stacksOK s) := by
  unfold stacksOK
  infer_instance

/-- Helper: the depth invariant only looks at the two stacks. -/
theorem stacksOK_congr (s t : AppState)
    (hh : t.historyStack = s.historyStack)
    (hr : t.redoStack = s.redoStack)
    (h : stacksOK s) : stacksOK t := by
  unfold stacksOK at *
  rw [hh, hr]
  exact h

/-- Helper: saveState keeps the history stack within the cap (shifting the
oldest entry when full) and clears the redo stack. -/
theorem saveState_stacks (s : AppState) (h : s.historyStack.length ≤ 20) :
    (saveState s).historyStack.length ≤ 20 ∧ (saveState s).redoStack = [] := by
  constructor
  · show (if maxHistory < (snapshotOfPages s.pages :: s.historyStack).length
        then (snapshotOfPages s.pages :: s.historyStack).dropLast
        else snapshotOfPages s.pages :: s.historyStack).length ≤ 20
    split
    · rw [List.length_dropLast]
      simp only [List.length_cons]
      omega
    · next hc =>
      simp only [maxHistory, Nat.not_lt, List.length_cons] at hc
      simp only [List.length_cons]
      omega
  · rfl

/-- Helper: saveState preserves the depth invariant. -/
theorem stacksOK_saveState (s : AppState) (h : stacksOK s) : stacksOK (saveState s) := by
  obtain ⟨hh, hr⟩ := saveState_stacks s h.1
  exact ⟨hh, by rw [hr]; simpa using hh⟩

/-- Helper: updateStatus preserves the depth invariant. -/
theorem stacksOK_updateStatus (s : AppState) (h : stacksOK s) : stacksOK (updateStatus s) := by
  unfold updateStatus
  split
  · exact stacksOK_congr (saveState s) _ rfl rfl (stacksOK_saveState s h)
  · exact h

/-- Helper: restoreState preserves the depth invariant. -/
theorem stacksOK_restoreState (s : AppState) (snap : List SnapPage)
    (h : stacksOK s) : stacksOK (restoreState s snap) := by
  refine stacksOK_congr
    (updateStatus { s with pages := restorePages s.sourceFiles snap, selectedPageIds := [] })
    _ rfl rfl ?_
  exact stacksOK_updateStatus _ (stacksOK_congr s _ rfl rfl h)

/-- Helper: ingesting one file never touches the two stacks. -/
theorem ingestOne_stacks (s : AppState) (f : IngestFile) :
    (ingestOne s f).historyStack = s.historyStack ∧
    (ingestOne s f).redoStack = s.redoStack := by
  unfold ingestOne
  repeat' split
  all_goals exact ⟨rfl, rfl⟩

/-- Helper: the addFiles ingestion loop never touches the two stacks. -/
theorem foldl_ingest_stacks : ∀ (files : List IngestFile) (t : AppState),
    (files.foldl ingestOne t).historyStack = t.historyStack ∧
    (files.foldl ingestOne t).redoStack = t.redoStack := by
  intro files
  induction files with
  | nil => intro t; exact ⟨rfl, rfl⟩
  | cons f fs ih =>
    intro t
    obtain ⟨e1, e2⟩ := ih (ingestOne t f)
    obtain ⟨e3, e4⟩ := ingestOne_stacks t f
    exact ⟨by rw [List.foldl_cons, e1, e3], by rw [List.foldl_cons, e2, e4]⟩

/-- Helper: addFiles preserves the depth invariant. -/
theorem addFiles_I8 (s : AppState) (files : List IngestFile)
    (h : stacksOK s) : stacksOK (addFiles s files) := by
  unfold addFiles
  split
  · exact h
  · obtain ⟨e1, e2⟩ := foldl_ingest_stacks files (saveState s)
    exact stacksOK_updateStatus _
      (stacksOK_congr (saveState s) _ e1 e2 (stacksOK_saveState s h))

/-- Helper: insertBlankPage preserves the depth invariant. -/
theorem insertBlankPage_I8 (s : AppState) (pid : String)
    (h : stacksOK s) : stacksOK (insertBlankPage s pid) := by
  have hs := stacksOK_saveState s h
  unfold insertBlankPage
  apply stacksOK_updateStatus
  split
  · exact stacksOK_congr (saveState s) _ rfl rfl hs
  · exact stacksOK_congr (saveState s) _ rfl rfl hs

/-- Helper: deletePages preserves the depth invariant. -/
theorem deletePages_I8 (s : AppState) (ids : List String)
    (h : stacksOK s) : stacksOK (deletePages s ids) :=
  stacksOK_updateStatus _
    (stacksOK_congr (saveState s) _ rfl rfl (stacksOK_saveState s h))

/-- Helper: duplicateSelected preserves the depth invariant. -/
theorem duplicateSelected_I8 (s : AppState) (fresh : Nat → String)
    (h : stacksOK s) : stacksOK (duplicateSelected s fresh) := by
  unfold duplicateSelected
  split
  · exact h
  · exact stacksOK_updateStatus _
      (stacksOK_congr (saveState s) _ rfl rfl (stacksOK_saveState s h))

/-- Helper: rotatePages preserves the depth invariant. -/
theorem rotatePages_I8 (s : AppState) (ids : List String) (angle : Int)
    (h : stacksOK s) : stacksOK (rotatePages s ids angle) :=
  stacksOK_congr (saveState s) _ rfl rfl (stacksOK_saveState s h)

/-- Helper: rotateSelectedPages preserves the depth invariant. -/
theorem rotateSelectedPages_I8 (s : AppState) (angle : Int)
    (h : stacksOK s) : stacksOK (rotateSelectedPages s angle) := by
  unfold rotateSelectedPages
  split
  · exact h
  · exact rotatePages_I8 s s.selectedPageIds angle h

/-- Helper: sortByNumber preserves the depth invariant. -/
theorem sortByNumber_I8 (s : AppState) (vals : String → String)
    (h : stacksOK s) : stacksOK (sortByNumber s vals) :=
  stacksOK_congr (saveState s) _ rfl rfl (stacksOK_saveState s h)

/-- Helper: applyTextToPages preserves the depth invariant. -/
theorem applyTextToPages_I8 (s : AppState) (onlySelected : Bool) (ov : TextOverlay)
    (h : stacksOK s) : stacksOK (applyTextToPages s onlySelected ov) := by
  unfold applyTextToPages
  repeat' split
  all_goals first
    | exact h
    | exact stacksOK_saveState s h

/-- Helper: dragReorder preserves the depth invariant. -/
theorem dragReorder_I8 (s : AppState) (newIds : List String)
    (h : stacksOK s) : stacksOK (dragReorder s newIds) := by
  unfold dragReorder
  split
  · exact stacksOK_congr (saveState s) _ rfl rfl (stacksOK_saveState s h)
  · exact h

/-- Helper: performUndo preserves the depth invariant. -/
theorem performUndo_I8 (s : AppState) (h : stacksOK s) : stacksOK (performUndo s) := by
  unfold performUndo
  split
  · exact h
  · next top rest heq =>
    have hlen : s.historyStack.length = rest.length + 1 := by rw [heq]; rfl
    refine stacksOK_restoreState _ top ?_
    show rest.length ≤ 20 ∧
      rest.length + (snapshotCurrentState s :: s.redoStack).length ≤ 20
    obtain ⟨h1, h2⟩ := h
    simp only [List.length_cons]
    omega

/-- Helper: performRedo preserves the depth invariant: the uncapped push
onto the history stack stays within the cap because a nonempty redo stack
leaves room under the joint bound. -/
theorem performRedo_I8 (s : AppState) (h : stacksOK s) : stacksOK (performRedo s) := by
  unfold performRedo
  split
  · exact h
  · next top rest heq =>
    have hlen : s.redoStack.length = rest.length + 1 := by rw [heq]; rfl
    refine stacksOK_restoreState _ top ?_
    show (snapshotCurrentState s :: s.historyStack).length ≤ 20 ∧
      (snapshotCurrentState s :: s.historyStack).length + rest.length ≤ 20
    obtain ⟨h1, h2⟩ := h
    simp only [List.length_cons]
    omega

/-- Helper: every operation preserves the depth invariant. -/
theorem applyOp_I8 (s : AppState) (op : Op) (h : stacksOK s) : stacksOK (applyOp s op) := by
  cases op with
  | addFiles files => exact addFiles_I8 s files h
  | insertBlank pid => exact insertBlankPage_I8 s pid h
  | deletePages ids => exact deletePages_I8 s ids h
  | duplicateSelected fresh => exact duplicateSelected_I8 s fresh h
  | rotateSelected angle => exact rotateSelectedPages_I8 s angle h
  | rotatePages ids angle => exact rotatePages_I8 s ids angle h
  | sortByNumber vals => exact sortByNumber_I8 s vals h
  | applyText onlySelected ov => exact applyTextToPages_I8 s onlySelected ov h
  | dragReorder newIds => exact dragReorder_I8 s newIds h
  | setSelection ids => exact stacksOK_congr s _ rfl rfl h
  | performUndo => exact performUndo_I8 s h
  | performRedo => exact performRedo_I8 s h
  | clearWorkspace => exact stacksOK_congr (saveState s) _ rfl rfl (stacksOK_saveState s h)

/-- Helper: the depth invariant holds along any run. -/
theorem runOps_I8 : ∀ (ops : List Op) (s : AppState),
    stacksOK s → stacksOK (runOps s ops) := by
  intro ops
  induction ops with
  | nil => intro s h; exact h
  | cons op rest ih => intro s h; exact ih (applyOp s op) (applyOp_I8 s op h)

/-- Helper: undo on an empty history stack is a no-op. -/
theorem performUndo_of_empty (s : AppState) (h : s.historyStack = []) :
    performUndo s = s := by
  unfold performUndo
  rw [h]

/-- C8: history depth bound.  (i) In every reachable state the undo stack
holds at most maxHistory = 20 snapshots, because saveState evicts the
oldest entry on overflow.  (ii) Hence after a clean run of more than 20
captured mutations, undo strictly consumes the stack and is exhausted
after exactly 20 applications: a 21st undo is a no-op. -/
theorem c8_history_depth :
    (∀ ops : List Op, (runOps initState ops).historyStack.length ≤ maxHistory) ∧
    (∀ (s0 : AppState) (ops : List Op),
      s0.pages ≠ [] →
      pagesResolve s0.sourceFiles s0.pages = true →
      cleanEditRun s0 ops = true →
      21 ≤ ops.length →
      (performUndo^[20] (runOps s0 ops)).historyStack = [] ∧
      performUndo (performUndo^[20] (runOps s0 ops))
        = performUndo^[20] (runOps s0 ops)) := by
  constructor
  · intro ops
    exact (runOps_I8 ops initState (by decide)).1
  · intro s0 ops hne hres hclean hlen21
    have hops : ops ≠ [] := by
      intro h
      rw [h] at hlen21
      exact absurd hlen21 (by decide)
    obtain ⟨hsrc, hredo, hh⟩ := runOps_shape ops s0 hops hclean
    have htr : (pageTrail s0 ops).length = ops.length := pageTrail_length ops s0
    have h20 : maxHistory ≤ ((pageTrail s0 ops).map snapshotOfPages).length := by
      simp only [maxHistory, List.length_map, htr]
      omega
    have hhist : (runOps s0 ops).historyStack
        = ((pageTrail s0 ops).take maxHistory).map snapshotOfPages ++ [] := by
      rw [List.append_nil, hh, List.take_append_of_le_length h20, List.map_take]
    have hcondAll := pageTrail_spec ops s0 hclean hres hne
    have hcond : ∀ q ∈ (pageTrail s0 ops).take maxHistory,
        q ≠ [] ∧ pagesResolve (runOps s0 ops).sourceFiles q = true := by
      intro q hq
      rw [hsrc]
      exact hcondAll q (List.take_subset _ _ hq)
    obtain ⟨hus, huh, hup, hur⟩ :=
      undoPhase ((pageTrail s0 ops).take maxHistory) (runOps s0 ops) [] hhist hcond
    have hqslen : ((pageTrail s0 ops).take maxHistory).length = 20 := by
      rw [List.length_take]
      simp only [maxHistory, htr]
      omega
    rw [hqslen] at huh
    exact ⟨huh, performUndo_of_empty _ huh⟩

set_option maxRecDepth 100000 in
/-- Witness for c8_history_depth: after 21 captured rotations from the
one-page workspace, 20 undos empty the history stack and a 21st undo is a
no-op. -/
theorem c8_witness :
    (performUndo^[20]
        (runOps stA (List.replicate 21 (Op.rotatePages ["p1"] 90)))).historyStack = [] ∧
    performUndo (performUndo^[20]
        (runOps stA (List.replicate 21 (Op.rotatePages ["p1"] 90))))
      = performUndo^[20] (runOps stA (List.replicate 21 (Op.rotatePages ["p1"] 90))) :=
  c8_history_depth.2 stA (List.replicate 21 (Op.rotatePages ["p1"] 90))
    (by decide) (by decide) (by decide) (by decide)
